import Mathlib

/-!
Verification of the FlashScore scraper repository (scraper-all.js, scraper-fast.js,
and the unnamed test-run / CI sources) against its natural-language specification.

The repository contains several variants of the same checkpointed crawl pattern:
* scraper-all.js, first script ("all1"): fetchTeams with everything inside try,
  catch returns []; retry loop of 2 attempts; skip-cached check; checkpoint load
  guarded by try/catch.
* scraper-all.js, second script ("main"): fetchTeams catch returns the isCup
  sentinel record for cup-classified URLs and [] otherwise; retry loop of 2
  attempts; skip-cached check; checkpoint load with NO catch; getListOfCountries
  throws on failure, getListOfLeagues returns [] on failure.
* scraper-fast.js ("fast"): page.goto and the debug dump sit OUTSIDE the try,
  only the selector wait / extraction is guarded; single fetch, no retry loop;
  skip-cached check; checkpoint load guarded by try/catch.
* src/unnamed/part_000, third document ("test"): goto outside try, catch on the
  selector wait returns []; NO skip-cached check, every league is fetched once.

Effectful browser operations (page.goto, waitForSelector, page.evaluate) are
modelled by oracle arguments of type Except String (...): the oracle either
yields the list of rendered DOM team links or the thrown error message.
JavaScript exceptions are modelled by the Except monad; file-system effects of
checkpoint flushes are outside the state modelled here (only the in-memory
snapshot is tracked, as the spec's Progress Store).
-/

/-! ## Generic association-list operations (JS object semantics)

A JavaScript object literal is modelled as an insertion-ordered association
list.  `obj[k]` is `lookupKey`, `obj[k] = v` is `setKey`: it overwrites the
existing key in place, or appends a new key at the end, exactly as JS objects
preserve insertion order. -/

def lookupKey {α : Type} : List (String × α) → String → Option α
  | [], _ => none
  | (k, v) :: rest, key => if k = key then some v else lookupKey rest key

def setKey {α : Type} : List (String × α) → String → α → List (String × α)
  | [], key, v => [(key, v)]
  | (k, w) :: rest, key, v =>
    if k = key then (key, v) :: rest else (k, w) :: setKey rest key v

/-! ## String helpers from the scrapers -/

/-- Does the second list start with the first one? -/
def beginsWith : List Char → List Char → Bool
  | [], _ => true
  | _ :: _, [] => false
  | p :: ps, c :: cs => p = c && beginsWith ps cs

/-- Does `s` contain `pat` as a contiguous sublist? (JS `RegExp.test` with a
literal word pattern.) -/
def containsSub : List Char → List Char → Bool
  | [], pat => beginsWith pat []
  | s@(_ :: rest), pat => beginsWith pat s || containsSub rest pat

/-- JS `url.replace(/\/+$/, '')`: remove every trailing slash. -/
def stripTrailingSlashes (s : List Char) : List Char :=
  ((s.reverse.dropWhile (fun c => c = '/')).reverse)

/-- JS `String.prototype.split('/')`: the resulting list is never empty. -/
def splitOnSlash : List Char → List (List Char)
  | [] => [[]]
  | c :: cs =>
    let r := splitOnSlash cs
    if c = '/' then [] :: r
    else
      match r with
      | [] => [[c]]
      | g :: gs => (c :: g) :: gs

/-- `const slug = url => url.replace(/\/+$/, '').split('/').pop();` -/
def slug (url : String) : String :=
  ⟨((splitOnSlash (stripTrailingSlashes url.data)).getLast?).getD []⟩

/-- JS `String.prototype.replace` with a plain-string pattern replaces only the
first occurrence. -/
def replaceFirst (s pat rep : List Char) : List Char :=
  match s with
  | [] => []
  | c :: cs =>
    if beginsWith pat s then rep ++ s.drop pat.length
    else c :: replaceFirst cs pat rep

/-- `const toUSA = url => url.replace('flashscore.com', 'flashscoreusa.com');` -/
def toUSA (url : String) : String :=
  ⟨replaceFirst url.data "flashscore.com".data "flashscoreusa.com".data⟩

/-- `const isCup = url => /cup|copa|trophy|shield|knockout/i.test(url);`
The `i` flag is modelled by lower-casing the URL before the substring tests. -/
def isCup (url : String) : Bool :=
  let l := url.data.map Char.toLower
  containsSub l "cup".data || containsSub l "copa".data ||
  containsSub l "trophy".data || containsSub l "shield".data ||
  containsSub l "knockout".data

/-- JS `String.prototype.trim`. -/
def jsTrim (s : String) : String :=
  ⟨((s.data.dropWhile Char.isWhitespace).reverse.dropWhile Char.isWhitespace).reverse⟩

/-! ## Data model

The snapshot tree written by the main script of scraper-all.js:
`{ [countryName]: { slug, url, leagues: { [leagueName]: { slug, url, teams } } } }`.
The first script of scraper-all.js, scraper-fast.js and the test-run script
additionally store a `urlUSA` field on both levels (the `U` record variants). -/

structure Team where
  name : String
  id : String
  url : Option String
deriving Repr, DecidableEq

/-- League record as written by the main script: `{ slug, url, teams }` —
note: no `isCup` field and no `urlUSA` field. -/
structure LeagueEntry where
  slug : String
  url : String
  teams : List Team
deriving Repr, DecidableEq

/-- Country record as written by the main script: `{ slug, url, leagues: {} }`. -/
structure CountryEntry where
  slug : String
  url : String
  leagues : List (String × LeagueEntry)
deriving Repr, DecidableEq

/-- League record of the scraper-all first script / scraper-fast / test-run
variants: `{ slug, url, urlUSA, teams }`. -/
structure LeagueEntryU where
  slug : String
  url : String
  urlUSA : String
  teams : List Team
deriving Repr, DecidableEq

/-- Country record of the scraper-all first script / scraper-fast / test-run
variants: `{ slug, url, urlUSA, leagues: {} }`. -/
structure CountryEntryU where
  slug : String
  url : String
  urlUSA : String
  leagues : List (String × LeagueEntryU)
deriving Repr, DecidableEq

/-- Progress snapshot of the main script, keyed by country display name. -/
def Snap : Type := List (String × CountryEntry)

/-- Snapshot of the `urlUSA` variants. -/
def SnapU : Type := List (String × CountryEntryU)

/-- A league as discovered by getListOfLeagues: `{ name, url }`. -/
structure League where
  name : String
  url : String
deriving Repr, DecidableEq

/-- A country as discovered by getListOfCountries: `{ id, name, url }`. -/
structure Country where
  id : String
  name : String
  url : String
deriving Repr, DecidableEq

/-- A rendered DOM anchor as seen by `page.evaluate`: its `href` and its
trimmed-to-be `innerText`. -/
structure DomLink where
  href : String
  text : String
deriving Repr, DecidableEq

/-! ## Team extraction (the `page.evaluate` body, identical in all variants)

```js
const map = new Map();
document.querySelectorAll('a[href*="/team/"]').forEach(a => {
  const m = a.href.match(/\/team\/[^\/]+\/([^\/?#]+)/);
  const name = a.innerText.trim();
  if (m && name && !map.has(m[1])) map.set(m[1], { name, id: m[1], url: a.href });
});
return Array.from(map.values());
```
-/

/-- Try the regex `\/team\/[^\/]+\/([^\/?#]+)` anchored at the start of `s`;
return the capture group. -/
def tryTeamAt (s : List Char) : Option (List Char) :=
  if beginsWith "/team/".data s then
    let rest := s.drop 6
    let seg := rest.takeWhile (fun c => c ≠ '/')
    if seg.isEmpty then none
    else
      match rest.drop seg.length with
      | '/' :: rest2 =>
        let cap := rest2.takeWhile (fun c => c ≠ '/' && c ≠ '?' && c ≠ '#')
        if cap.isEmpty then none else some cap
      | _ => none
  else none

/-- `href.match(/\/team\/[^\/]+\/([^\/?#]+)/)`: leftmost match, returning the
capture group `m[1]`. -/
def matchTeamId : List Char → Option (List Char)
  | [] => none
  | s@(_ :: cs) =>
    match tryTeamAt s with
    | some cap => some cap
    | none => matchTeamId cs

/-- One iteration of the `forEach` body over the insertion-ordered map. -/
def extractStep (acc : List (String × Team)) (a : DomLink) : List (String × Team) :=
  match matchTeamId a.href.data with
  | none => acc
  | some cap =>
    let tid : String := ⟨cap⟩
    let nm := jsTrim a.text
    if !nm.isEmpty && (lookupKey acc tid).isNone
    then acc ++ [(tid, ⟨nm, tid, some a.href⟩)]
    else acc

/-- The full `page.evaluate` extraction: `Array.from(map.values())`. -/
def extractTeams (links : List DomLink) : List Team :=
  (links.foldl extractStep []).map (fun p => p.2)

/-- Specification helper (from the spec's words, for claim C9): the name and
href of the first link in document order that yields team id `tid` with a
non-empty trimmed name. -/
def firstTeamFor : List DomLink → String → Option (String × String)
  | [], _ => none
  | a :: rest, tid =>
    match matchTeamId a.href.data with
    | some cap =>
      if (⟨cap⟩ : String) = tid ∧ (jsTrim a.text).isEmpty = false
      then some (jsTrim a.text, a.href)
      else firstTeamFor rest tid
    | none => firstTeamFor rest tid

/-! ## fetchTeams, per variant -/

/-- JS try/catch: run the body; on a thrown error apply the handler. -/
def catchWith {α : Type} (body : Except String α) (handler : String → α) : Except String α :=
  match body with
  | .ok a => .ok a
  | .error e => .ok (handler e)

/-- The sentinel record returned by the main script for exhausted cup URLs:
`{ name: 'isCup', id: 'isCup', url: null }`. -/
def sentinelTeam : Team := ⟨"isCup", "isCup", none⟩

/-- fetchTeams of scraper-all.js, first script: goto, waitForSelector and the
evaluate all sit inside the try; the catch returns `[]`.  `outcome` is the
browser oracle: either the rendered team links or the thrown error. -/
def fetchTeamsAll1 (outcome : Except String (List DomLink)) : Except String (List Team) :=
  catchWith (outcome.map extractTeams) (fun _ => [])

/-- fetchTeams of scraper-all.js, second (main) script: same try scope, but the
catch returns the cup sentinel for cup-classified URLs:
`return isCup(league.url) ? [{ name: 'isCup', id: 'isCup', url: null }] : [];` -/
def fetchTeamsMain (leagueUrl : String) (outcome : Except String (List DomLink)) :
    Except String (List Team) :=
  catchWith (outcome.map extractTeams)
    (fun _ => if isCup leagueUrl then [sentinelTeam] else [])

/-- fetchTeams of scraper-fast.js.  `page.goto` (gotoRes) and the debug dump
(dumpRes: fs.mkdir, fs.writeFile, page.screenshot) run OUTSIDE the try and
their failures propagate; the cookie-banner step has its own try/catch, so its
outcome never influences the result; only the selector wait and extraction
(selRes) are guarded, with catch returning `[]`.  The league URL only selects
the selector timeout, which is part of the oracle. -/
def fetchTeamsFast (_leagueUrl : String) (gotoRes : Except String Unit)
    (_cookieRes : Except String Unit) (dumpRes : Except String Unit)
    (selRes : Except String (List DomLink)) : Except String (List Team) :=
  match gotoRes with
  | .error e => .error e
  | .ok _ =>
    match dumpRes with
    | .error e => .error e
    | .ok _ => catchWith (selRes.map extractTeams) (fun _ => [])

/-- fetchTeams of the test-run script (src/unnamed/part_000, third document):
`page.goto` outside any try, cookie banner in its own try/catch, selector wait
and extraction guarded with catch returning `[]`. -/
def fetchTeamsTest (_leagueUrl : String) (gotoRes : Except String Unit)
    (_cookieRes : Except String Unit) (selRes : Except String (List DomLink)) :
    Except String (List Team) :=
  match gotoRes with
  | .error e => .error e
  | .ok _ => catchWith (selRes.map extractTeams) (fun _ => [])

/-! ## Retry loop and league processing, main script

```js
let teams = [];
for (let i = 1; i <= 2; i++) {
  teams = await fetchTeams(browser, league);
  if (teams.length) break;
}
```
`outcome i` is the browser oracle for attempt `i`.  The returned Nat counts the
fetchTeams invocations actually performed. -/
def runLeagueFetch (leagueUrl : String)
    (outcome : Nat → Except String (List DomLink)) :
    Except String (List Team × Nat) :=
  match fetchTeamsMain leagueUrl (outcome 1) with
  | .error e => .error e
  | .ok t1 =>
    if t1.length ≠ 0 then .ok (t1, 1)
    else
      match fetchTeamsMain leagueUrl (outcome 2) with
      | .error e => .error e
      | .ok t2 => .ok (t2, 2)

/-- The skip-cached check of the main script:
`if (output[country.name].leagues[league.name]?.teams?.length) continue;` -/
def skipCached (ce : CountryEntry) (lname : String) : Bool :=
  match lookupKey ce.leagues lname with
  | some le => !le.teams.isEmpty
  | none => false

/-- Same check in the urlUSA variants (scraper-all first script, scraper-fast). -/
def skipCachedU (ce : CountryEntryU) (lname : String) : Bool :=
  match lookupKey ce.leagues lname with
  | some le => !le.teams.isEmpty
  | none => false

/-- One league iteration of the main script's inner loop, acting on the
country's entry: skip if cached, otherwise run the retry loop and write
`{ slug: slug(league.url), url: league.url, teams }`.  The Nat is the number of
fetchTeams invocations. -/
def leagueStep (outcome : Nat → Except String (List DomLink))
    (ce : CountryEntry) (lg : League) : Except String (CountryEntry × Nat) :=
  if skipCached ce lg.name then .ok (ce, 0)
  else
    match runLeagueFetch lg.url outcome with
    | .error e => .error e
    | .ok (teams, n) =>
      .ok ({ ce with leagues := setKey ce.leagues lg.name ⟨slug lg.url, lg.url, teams⟩ }, n)

/-- One league iteration of scraper-fast.js: skip if cached, otherwise a single
fetchTeams call (no retry loop) and write `{ slug, url, urlUSA, teams }`. -/
def leagueStepFast (gotoRes cookieRes dumpRes : Except String Unit)
    (selRes : Except String (List DomLink)) (ce : CountryEntryU) (lg : League) :
    Except String (CountryEntryU × Nat) :=
  if skipCachedU ce lg.name then .ok (ce, 0)
  else
    (fetchTeamsFast lg.url gotoRes cookieRes dumpRes selRes).map
      (fun teams =>
        ({ ce with leagues := setKey ce.leagues lg.name (⟨slug lg.url, lg.url, toUSA lg.url, teams⟩ : LeagueEntryU) }, 1))

/-- One league iteration of the test-run script: NO skip-cached check — every
league is fetched exactly once and its entry overwritten. -/
def leagueStepTest (gotoRes cookieRes : Except String Unit)
    (selRes : Except String (List DomLink)) (ce : CountryEntryU) (lg : League) :
    Except String (CountryEntryU × Nat) :=
  (fetchTeamsTest lg.url gotoRes cookieRes selRes).map
    (fun teams =>
      ({ ce with leagues := setKey ce.leagues lg.name (⟨slug lg.url, lg.url, toUSA lg.url, teams⟩ : LeagueEntryU) }, 1))

/-- The main script's league iteration at snapshot level:
`output[country.name].leagues[league.name] = {...}`.  The main loop creates the
country entry before the league loop, so the `none` branch is unreachable
there; it returns the snapshot unchanged. -/
def snapLeagueStep (outcome : Nat → Except String (List DomLink))
    (S : Snap) (cname : String) (lg : League) : Except String (Snap × Nat) :=
  match lookupKey S cname with
  | none => .ok (S, 0)
  | some ce =>
    (leagueStep outcome ce lg).map (fun p => (setKey S cname p.1, p.2))

/-- The main script's country-entry initialisation:
`if (!output[country.name]) output[country.name] = { slug, url, leagues: {} };` -/
def ensureEntry (S : Snap) (c : Country) : Snap :=
  match lookupKey S c.name with
  | some _ => S
  | none => setKey S c.name ⟨slug c.url, c.url, []⟩

/-- The `||` form used by the scraper-all first script and scraper-fast:
`output[key] = output[key] || { slug, url, urlUSA, leagues: {} };` — the
assignment always runs, writing back the existing entry when present. -/
def ensureEntryU (S : SnapU) (c : Country) : SnapU :=
  match lookupKey S c.name with
  | some e => setKey S c.name e
  | none => setKey S c.name ⟨slug c.url, c.url, toUSA c.url, []⟩

/-- One country iteration of the main script: ensure the entry, discover the
leagues (getListOfLeagues catches its own failures and returns `[]`), then fold
the league loop.  `leaguesO` is the discovery oracle, `fetchO lg i` the browser
oracle for attempt `i` on league `lg`. -/
def processCountry (leaguesO : Country → Except String (List League))
    (fetchO : League → Nat → Except String (List DomLink))
    (S : Snap) (c : Country) : Except String Snap :=
  let S1 := ensureEntry S c
  let leagues :=
    match leaguesO c with
    | .error _ => []
    | .ok ls => ls
  leagues.foldlM (fun s lg => (snapLeagueStep (fetchO lg) s c.name lg).map (fun p => p.1)) S1

/-- The main script's crawl: getListOfCountries rethrows its failure, which
reaches the catch around the whole crawl (`process.exit(1)`), modelled as the
error result; otherwise every country is processed in order. -/
def runMain (countriesO : Except String (List Country))
    (leaguesO : Country → Except String (List League))
    (fetchO : League → Nat → Except String (List DomLink))
    (S0 : Snap) : Except String Snap :=
  match countriesO with
  | .error e => .error e
  | .ok cs => cs.foldlM (processCountry leaguesO fetchO) S0

/-! ## Helper lemmas on association lists -/

theorem lookup_setKey_self {α : Type} (m : List (String × α)) (k : String) (v : α) :
    lookupKey (setKey m k v) k = some v := by
  induction m with
  | nil => simp [setKey, lookupKey]
  | cons p rest ih =>
    obtain ⟨a, b⟩ := p
    by_cases hak : a = k
    · simp [setKey, hak, lookupKey]
    · simp [setKey, hak, lookupKey, ih]

theorem lookup_setKey_ne {α : Type} (m : List (String × α)) (k k' : String) (v : α)
    (h : k' ≠ k) : lookupKey (setKey m k v) k' = lookupKey m k' := by
  have hkk : ¬ k = k' := fun hc => h hc.symm
  induction m with
  | nil => simp [setKey, lookupKey, hkk]
  | cons p rest ih =>
    obtain ⟨a, b⟩ := p
    by_cases hak : a = k
    · subst hak
      simp [setKey, lookupKey, hkk]
    · simp only [setKey, if_neg hak, lookupKey]
      by_cases hak' : a = k'
      · simp [hak']
      · simp [hak', ih]

theorem setKey_self {α : Type} (m : List (String × α)) (k : String) (v : α)
    (h : lookupKey m k = some v) : setKey m k v = m := by
  induction m with
  | nil => simp [lookupKey] at h
  | cons p rest ih =>
    obtain ⟨a, b⟩ := p
    by_cases hak : a = k
    · subst hak
      simp [lookupKey] at h
      simp [setKey, h]
    · simp only [lookupKey, if_neg hak] at h
      simp [setKey, hak, ih h]

/-! ## Helper lemmas on the fetch models -/

theorem fetchTeamsMain_error (u : String) (e : String) :
    fetchTeamsMain u (.error e) = .ok (if isCup u then [sentinelTeam] else []) := rfl

theorem fetchTeamsMain_ok_links (u : String) (links : List DomLink) :
    fetchTeamsMain u (.ok links) = .ok (extractTeams links) := rfl

/-- fetchTeams of the main script never throws: every failure is converted by
its catch into the empty list or the cup sentinel. -/
theorem fetchTeamsMain_total (u : String) (o : Except String (List DomLink)) :
    ∃ ts, fetchTeamsMain u o = .ok ts := by
  cases o with
  | ok links => exact ⟨extractTeams links, rfl⟩
  | error e => exact ⟨if isCup u then [sentinelTeam] else [], rfl⟩

theorem fetchTeamsAll1_total (o : Except String (List DomLink)) :
    ∃ ts, fetchTeamsAll1 o = .ok ts := by
  cases o with
  | ok links => exact ⟨extractTeams links, rfl⟩
  | error e => exact ⟨[], rfl⟩

/-- The retry loop of the main script always succeeds and performs one or two
fetchTeams invocations. -/
theorem runLeagueFetch_total (u : String) (o : Nat → Except String (List DomLink)) :
    ∃ ts n, runLeagueFetch u o = .ok (ts, n) ∧ 1 ≤ n ∧ n ≤ 2 := by
  obtain ⟨t1, h1⟩ := fetchTeamsMain_total u (o 1)
  obtain ⟨t2, h2⟩ := fetchTeamsMain_total u (o 2)
  by_cases hlen : t1.length ≠ 0
  · exact ⟨t1, 1, by simp [runLeagueFetch, h1, hlen], by omega, by omega⟩
  · refine ⟨t2, 2, ?_, by omega, by omega⟩
    unfold runLeagueFetch
    rw [h1]
    simp only [if_neg hlen]
    rw [h2]

/-- The league iteration of the main script always succeeds, touches only the
entry keyed by the league's name, and keeps the country's own fields. -/
theorem leagueStep_spec (o : Nat → Except String (List DomLink))
    (ce : CountryEntry) (lg : League) :
    ∃ ce' n, leagueStep o ce lg = .ok (ce', n) ∧ ce'.slug = ce.slug ∧
      ce'.url = ce.url ∧
      (∀ l', l' ≠ lg.name → lookupKey ce'.leagues l' = lookupKey ce.leagues l') := by
  by_cases hskip : skipCached ce lg.name
  · exact ⟨ce, 0, by simp [leagueStep, hskip], rfl, rfl, fun _ _ => rfl⟩
  · obtain ⟨ts, n, hrun, h1, h2⟩ := runLeagueFetch_total lg.url o
    refine ⟨{ ce with leagues := setKey ce.leagues lg.name ⟨slug lg.url, lg.url, ts⟩ }, n,
      ?_, rfl, rfl, ?_⟩
    · simp [leagueStep, hskip, hrun]
    · intro l' hl'
      exact lookup_setKey_ne ce.leagues lg.name l' _ hl'

theorem skipCached_true {ce : CountryEntry} {lname : String} {le : LeagueEntry}
    (h : lookupKey ce.leagues lname = some le) (ht : le.teams ≠ []) :
    skipCached ce lname = true := by
  simp only [skipCached, h]
  cases hte : le.teams with
  | nil => exact absurd hte ht
  | cons a l => simp [hte]

theorem skipCachedU_true {ce : CountryEntryU} {lname : String} {le : LeagueEntryU}
    (h : lookupKey ce.leagues lname = some le) (ht : le.teams ≠ []) :
    skipCachedU ce lname = true := by
  simp only [skipCachedU, h]
  cases hte : le.teams with
  | nil => exact absurd hte ht
  | cons a l => simp [hte]

/-! ## Concrete fixtures used by witnesses and counterexamples -/

def urlPrem : String := "https://www.flashscore.com/soccer/england/premier-league"

def copaUrl : String := "https://www.flashscore.com/soccer/spain/copa-del-rey"

def teamArsenal : Team :=
  ⟨"Arsenal", "W8mj7MDD", some "https://www.flashscore.com/team/arsenal/W8mj7MDD/"⟩

def lePrem : LeagueEntry := ⟨"premier-league", urlPrem, [teamArsenal]⟩

def ceEngland : CountryEntry :=
  ⟨"england", "https://www.flashscore.com/soccer/england", [("Premier League", lePrem)]⟩

def leUPrem : LeagueEntryU :=
  ⟨"premier-league", urlPrem, "https://www.flashscoreusa.com/soccer/england/premier-league",
    [teamArsenal]⟩

def ceUEngland : CountryEntryU :=
  ⟨"england", "https://www.flashscore.com/soccer/england",
    "https://www.flashscoreusa.com/soccer/england", [("Premier League", leUPrem)]⟩

def snapW : Snap := [("England", ceEngland)]

def countryEngland : Country :=
  ⟨"country_England", "England", "https://www.flashscore.com/soccer/england"⟩

def lgPrem : League := ⟨"Premier League", urlPrem⟩

def alwaysFailLinks : Nat → Except String (List DomLink) :=
  fun _ => Except.error "net::ERR_FAILED"

/-- The test-run script's overwrite of the cached Premier League entry after a
failed fetch: the cached team list is replaced by []. -/
def ceUEnglandOver : CountryEntryU :=
  { ceUEngland with leagues := [("Premier League",
      (⟨"premier-league", urlPrem,
        "https://www.flashscoreusa.com/soccer/england/premier-league", []⟩ : LeagueEntryU))] }

/-! ## Claim C1 -/

/-- C1 (corrected).  The skip-if-complete property as it actually holds: in the
scraper-all main script (leagueStep) and in scraper-fast (leagueStepFast), a
league whose snapshot entry has at least one stored team is skipped — zero
fetchTeams invocations and the country entry left unchanged — while a league
whose entry is missing or has empty teams is fetched (at least one invocation).
The test-run script violates the original claim (see its counterexample). -/
theorem claim_C1 (o : Nat → Except String (List DomLink))
    (g c d : Except String Unit) (s : Except String (List DomLink))
    (ce : CountryEntry) (ceU : CountryEntryU) (lg : League)
    (le : LeagueEntry) (leU : LeagueEntryU)
    (h : lookupKey ce.leagues lg.name = some le) (ht : le.teams ≠ [])
    (hU : lookupKey ceU.leagues lg.name = some leU) (htU : leU.teams ≠ []) :
    leagueStep o ce lg = Except.ok (ce, 0) ∧
    leagueStepFast g c d s ceU lg = Except.ok (ceU, 0) ∧
    (∀ ce₂ : CountryEntry, skipCached ce₂ lg.name = false →
      ∃ ce' n, leagueStep o ce₂ lg = Except.ok (ce', n) ∧ 1 ≤ n) := by
  refine ⟨?_, ?_, ?_⟩
  · simp [leagueStep, skipCached_true h ht]
  · simp [leagueStepFast, skipCachedU_true hU htU]
  · intro ce₂ hskip
    obtain ⟨ts, n, hrun, h1, _⟩ := runLeagueFetch_total lg.url o
    refine ⟨{ ce₂ with leagues := setKey ce₂.leagues lg.name ⟨slug lg.url, lg.url, ts⟩ },
      n, ?_, h1⟩
    simp [leagueStep, hskip, hrun]

/-- C1 witness: the cached Premier League entry is skipped by the main script's
league step. -/
theorem claim_C1_witness :
    lookupKey ceEngland.leagues lgPrem.name = some lePrem ∧ lePrem.teams ≠ [] ∧
    leagueStep alwaysFailLinks ceEngland lgPrem = Except.ok (ceEngland, 0) :=
  ⟨rfl, by decide,
    (claim_C1 alwaysFailLinks (Except.ok ()) (Except.ok ()) (Except.ok ()) (Except.ok [])
      ceEngland ceUEngland lgPrem lePrem leUPrem rfl (by decide) rfl (by decide)).1⟩

/-- C1 counterexample: the test-run script (src/unnamed/part_000, lines
349–361) has no skip-cached check.  With a cached league holding one team, its
league step still invokes fetchTeams (count 1, not 0) and overwrites the entry
(the cached team list becomes []), contradicting the claim for this
orchestrator. -/
theorem counterexample_C1 :
    leagueStepTest (Except.ok ()) (Except.ok ()) (Except.error "timeout") ceUEngland lgPrem =
      Except.ok (ceUEnglandOver, 1) ∧ ceUEnglandOver ≠ ceUEngland := by
  exact ⟨rfl, by decide⟩

/-! ## Claim C2 -/

/-- C2 (corrected).  With a fetcher that fails on every attempt, the main
script's retry loop performs exactly 2 fetchTeams invocations and yields []
for a non-cup URL; but for a cup-classified URL the catch returns the non-empty
sentinel, which stops the loop after exactly 1 invocation (not 2). -/
theorem claim_C2 (url : String) (o : Nat → Except String (List DomLink))
    (h : ∀ i, ∃ e, o i = Except.error e) :
    (isCup url = false → runLeagueFetch url o = Except.ok ([], 2)) ∧
    (isCup url = true → runLeagueFetch url o = Except.ok ([sentinelTeam], 1)) := by
  obtain ⟨e1, h1⟩ := h 1
  obtain ⟨e2, h2⟩ := h 2
  constructor
  · intro hc
    simp [runLeagueFetch, h1, h2, fetchTeamsMain_error, hc]
  · intro hc
    simp [runLeagueFetch, h1, fetchTeamsMain_error, hc]

/-- C2 witness: the always-failing fetcher on the copa URL yields the sentinel
after one attempt. -/
theorem claim_C2_witness :
    isCup copaUrl = true ∧
    runLeagueFetch copaUrl alwaysFailLinks = Except.ok ([sentinelTeam], 1) :=
  ⟨by decide,
    (claim_C2 copaUrl alwaysFailLinks (fun _ => ⟨"net::ERR_FAILED", rfl⟩)).2 (by decide)⟩

/-- C2 counterexample: for the cup-classified copa URL with an always-failing
fetcher, the retry loop performs 1 invocation, not the claimed 2: the result is
`([sentinel], 1)` and in particular not `([sentinel], 2)`. -/
theorem counterexample_C2 :
    runLeagueFetch copaUrl alwaysFailLinks = Except.ok ([sentinelTeam], 1) ∧
    runLeagueFetch copaUrl alwaysFailLinks ≠ Except.ok ([sentinelTeam], 2) := by
  have heq : runLeagueFetch copaUrl alwaysFailLinks = Except.ok ([sentinelTeam], 1) := rfl
  refine ⟨heq, ?_⟩
  rw [heq]
  simp

/-! ## Claim C3 -/

/-- C3 (corrected).  Error containment as it actually holds: in both
scraper-all fetchTeams variants every fetch/extract failure is caught at the
attempt boundary (the result is always `ok`); in scraper-fast, containment
holds only for the selector/extraction stage — provided navigation and the
debug dump succeeded.  Navigation failures in scraper-fast propagate (see the
counterexample). -/
theorem claim_C3 :
    (∀ o : Except String (List DomLink), ∃ ts, fetchTeamsAll1 o = Except.ok ts) ∧
    (∀ (url : String) (o : Except String (List DomLink)),
      ∃ ts, fetchTeamsMain url o = Except.ok ts) ∧
    (∀ (url : String) (c : Except String Unit) (s : Except String (List DomLink)),
      ∃ ts, fetchTeamsFast url (Except.ok ()) c (Except.ok ()) s = Except.ok ts) := by
  refine ⟨fetchTeamsAll1_total, fetchTeamsMain_total, ?_⟩
  intro url c s
  cases s with
  | ok links => exact ⟨extractTeams links, rfl⟩
  | error e => exact ⟨[], rfl⟩

/-- C3 counterexample: in scraper-fast.js `page.goto` sits outside the try, so
a navigation failure propagates out of fetchTeams instead of being converted
into an empty/sentinel result. -/
theorem counterexample_C3 :
    fetchTeamsFast urlPrem (Except.error "net::ERR_TIMED_OUT") (Except.ok ())
      (Except.ok ()) (Except.ok []) = Except.error "net::ERR_TIMED_OUT" := rfl

/-! ## Claim C6 -/

/-- C6 (confirmed).  Discovery failure severity asymmetry in the main script: a
getListOfCountries failure propagates and aborts the run (error result, i.e.
`process.exit(1)`), whereas a getListOfLeagues failure for one country makes
that country's league list empty, so the country step only ensures the entry
and the crawl continues; an existing country entry is preserved unchanged. -/
theorem claim_C6 (e : String) (lO : Country → Except String (List League))
    (fO : League → Nat → Except String (List DomLink)) (S : Snap) (c : Country)
    (e' : String) (hc : lO c = Except.error e') :
    runMain (Except.error e) lO fO S = Except.error e ∧
    processCountry lO fO S c = Except.ok (ensureEntry S c) ∧
    (∀ ent, lookupKey S c.name = some ent →
      lookupKey (ensureEntry S c) c.name = some ent) := by
  refine ⟨rfl, ?_, ?_⟩
  · simp [processCountry, hc]
    rfl
  · intro ent h
    simp [ensureEntry, h]

/-- C6 witness. -/
theorem claim_C6_witness :
    runMain (Except.error "boom") (fun _ => Except.error "nav") (fun _ _ => Except.ok [])
      snapW = Except.error "boom" ∧
    processCountry (fun _ => Except.error "nav") (fun _ _ => Except.ok []) snapW
      countryEngland = Except.ok (ensureEntry snapW countryEngland) :=
  ⟨(claim_C6 "boom" (fun _ => Except.error "nav") (fun _ _ => Except.ok []) snapW
      countryEngland "nav" rfl).1,
   (claim_C6 "boom" (fun _ => Except.error "nav") (fun _ _ => Except.ok []) snapW
      countryEngland "nav" rfl).2.1⟩

/-! ## Claim C7 -/

/-- C7 (confirmed).  Country entry preservation, in the main script's
`if (!output[name])` form and in the `output[key] = output[key] || {...}` form
of the scraper-all first script and scraper-fast: an existing entry is kept
as-is (the whole snapshot is unchanged), and a fresh entry with an empty
leagues map is created only when the name is absent. -/
theorem claim_C7 (S : Snap) (SU : SnapU) (c : Country) :
    (∀ ent, lookupKey S c.name = some ent → ensureEntry S c = S) ∧
    (lookupKey S c.name = none →
      lookupKey (ensureEntry S c) c.name = some ⟨slug c.url, c.url, []⟩) ∧
    (∀ entU, lookupKey SU c.name = some entU → ensureEntryU SU c = SU) ∧
    (lookupKey SU c.name = none →
      lookupKey (ensureEntryU SU c) c.name = some ⟨slug c.url, c.url, toUSA c.url, []⟩) := by
  refine ⟨?_, ?_, ?_, ?_⟩
  · intro ent h
    simp [ensureEntry, h]
  · intro h
    simp [ensureEntry, h, lookup_setKey_self]
  · intro entU h
    simp only [ensureEntryU, h]
    exact setKey_self SU c.name entU h
  · intro h
    simp [ensureEntryU, h, lookup_setKey_self]

/-- C7 witness: an existing England entry is preserved; on the empty snapshot a
fresh entry with an empty leagues map is created. -/
theorem claim_C7_witness :
    ensureEntry snapW countryEngland = snapW ∧
    lookupKey (ensureEntry ([] : Snap) countryEngland) "England" =
      some ⟨"england", "https://www.flashscore.com/soccer/england", []⟩ := by
  constructor
  · exact (claim_C7 snapW [] countryEngland).1 ceEngland rfl
  · have h := (claim_C7 ([] : Snap) [] countryEngland).2.1 rfl
    simpa using h

/-! ## Claim C10 -/

/-- C10 (confirmed).  Per-league write locality of the main script's
fetch-write step: given the country entry exists, the step succeeds and
changes at most the league record keyed by the processed league's name under
that country; every other country's entry, the country's own slug/url fields,
and every other league record are unchanged. -/
theorem claim_C10 (o : Nat → Except String (List DomLink)) (S : Snap)
    (cname : String) (lg : League) (ce : CountryEntry)
    (h : lookupKey S cname = some ce) :
    ∃ S' n, snapLeagueStep o S cname lg = Except.ok (S', n) ∧
      (∀ c', c' ≠ cname → lookupKey S' c' = lookupKey S c') ∧
      ∃ ce', lookupKey S' cname = some ce' ∧ ce'.slug = ce.slug ∧ ce'.url = ce.url ∧
        (∀ l', l' ≠ lg.name → lookupKey ce'.leagues l' = lookupKey ce.leagues l') := by
  obtain ⟨ce', n, hstep, hs, hu, hl⟩ := leagueStep_spec o ce lg
  refine ⟨setKey S cname ce', n, ?_, ?_, ce', ?_, hs, hu, hl⟩
  · simp [snapLeagueStep, h, hstep, Except.map]
  · intro c' hc'
    exact lookup_setKey_ne S cname c' ce' hc'
  · exact lookup_setKey_self S cname ce'

/-- C10 witness. -/
theorem claim_C10_witness :
    ∃ S' n, snapLeagueStep alwaysFailLinks snapW "England" lgPrem = Except.ok (S', n) ∧
      (∀ c', c' ≠ "England" → lookupKey S' c' = lookupKey snapW c') ∧
      ∃ ce', lookupKey S' "England" = some ce' ∧ ce'.slug = ceEngland.slug ∧
        ce'.url = ceEngland.url ∧
        (∀ l', l' ≠ lgPrem.name → lookupKey ce'.leagues l' = lookupKey ceEngland.leagues l') :=
  claim_C10 alwaysFailLinks snapW "England" lgPrem ceEngland rfl

/-! ## Lemmas for the extraction dedup (claim C9) -/

theorem lookup_append_single {α : Type} (acc : List (String × α)) (k key : String) (v : α) :
    lookupKey (acc ++ [(k, v)]) key =
      match lookupKey acc key with
      | some t => some t
      | none => if k = key then some v else none := by
  induction acc with
  | nil => simp [lookupKey]
  | cons p rest ih =>
    obtain ⟨a, b⟩ := p
    by_cases hak : a = key
    · simp [lookupKey, hak]
    · simp [lookupKey, hak, ih]

theorem lookup_none_of_not_mem {α : Type} (ps : List (String × α)) (k : String)
    (h : k ∉ ps.map Prod.fst) : lookupKey ps k = none := by
  induction ps with
  | nil => rfl
  | cons p rest ih =>
    obtain ⟨a, b⟩ := p
    simp only [List.map_cons, List.mem_cons] at h
    push_neg at h
    have hne : ¬ a = k := fun hc => h.1 hc.symm
    simp only [lookupKey, if_neg hne, ih h.2]

theorem not_mem_of_lookup_none {α : Type} (ps : List (String × α)) (k : String)
    (h : lookupKey ps k = none) : k ∉ ps.map Prod.fst := by
  induction ps with
  | nil => simp
  | cons p rest ih =>
    obtain ⟨a, b⟩ := p
    by_cases hak : a = k
    · simp [lookupKey, hak] at h
    · simp only [lookupKey, if_neg hak] at h
      simp only [List.map_cons, List.mem_cons]
      push_neg
      exact ⟨fun hc => hak hc.symm, ih h⟩

theorem extractStep_mnone (acc : List (String × Team)) (a : DomLink)
    (hm : matchTeamId a.href.data = none) : extractStep acc a = acc := by
  simp [extractStep, hm]

theorem extractStep_madd (acc : List (String × Team)) (a : DomLink) (cap : List Char)
    (hm : matchTeamId a.href.data = some cap)
    (hc : (!(jsTrim a.text).isEmpty && (lookupKey acc ⟨cap⟩).isNone) = true) :
    extractStep acc a =
      acc ++ [((⟨cap⟩ : String), ⟨jsTrim a.text, ⟨cap⟩, some a.href⟩)] := by
  simp only [extractStep, hm]
  rw [if_pos hc]

theorem extractStep_mskip (acc : List (String × Team)) (a : DomLink) (cap : List Char)
    (hm : matchTeamId a.href.data = some cap)
    (hc : ¬ (!(jsTrim a.text).isEmpty && (lookupKey acc ⟨cap⟩).isNone) = true) :
    extractStep acc a = acc := by
  simp only [extractStep, hm]
  rw [if_neg hc]

theorem firstTeamFor_mnone (a : DomLink) (rest : List DomLink) (tid : String)
    (hm : matchTeamId a.href.data = none) :
    firstTeamFor (a :: rest) tid = firstTeamFor rest tid := by
  simp [firstTeamFor, hm]

theorem firstTeamFor_msome (a : DomLink) (rest : List DomLink) (tid : String) (cap : List Char)
    (hm : matchTeamId a.href.data = some cap) :
    firstTeamFor (a :: rest) tid =
      if (⟨cap⟩ : String) = tid ∧ (jsTrim a.text).isEmpty = false
      then some (jsTrim a.text, a.href)
      else firstTeamFor rest tid := by
  simp [firstTeamFor, hm]

theorem extractStep_ids (acc : List (String × Team)) (a : DomLink)
    (h : ∀ p ∈ acc, Team.id p.2 = p.1) : ∀ p ∈ extractStep acc a, Team.id p.2 = p.1 := by
  cases hm : matchTeamId a.href.data with
  | none => rw [extractStep_mnone acc a hm]; exact h
  | some cap =>
    by_cases hc : (!(jsTrim a.text).isEmpty && (lookupKey acc ⟨cap⟩).isNone) = true
    · rw [extractStep_madd acc a cap hm hc]
      intro p hp
      rcases List.mem_append.mp hp with hin | hone
      · exact h p hin
      · simp only [List.mem_singleton] at hone
        subst hone
        rfl
    · rw [extractStep_mskip acc a cap hm hc]
      exact h

theorem extractStep_nodup (acc : List (String × Team)) (a : DomLink)
    (h : (acc.map Prod.fst).Nodup) : ((extractStep acc a).map Prod.fst).Nodup := by
  cases hm : matchTeamId a.href.data with
  | none => rw [extractStep_mnone acc a hm]; exact h
  | some cap =>
    by_cases hc : (!(jsTrim a.text).isEmpty && (lookupKey acc ⟨cap⟩).isNone) = true
    · rw [extractStep_madd acc a cap hm hc]
      simp only [Bool.and_eq_true] at hc
      have hnone : lookupKey acc ⟨cap⟩ = none := by
        cases hl : lookupKey acc (⟨cap⟩ : String)
        · rfl
        · rw [hl] at hc
          exact absurd hc.2 (by simp)
      have hnm := not_mem_of_lookup_none acc ⟨cap⟩ hnone
      simp only [List.map_append, List.map_cons, List.map_nil]
      refine List.Nodup.append h (List.nodup_singleton _) ?_
      intro x hx hy
      simp only [List.mem_singleton] at hy
      subst hy
      exact hnm hx
    · rw [extractStep_mskip acc a cap hm hc]
      exact h

theorem extractFold_ids (links : List DomLink) (acc : List (String × Team))
    (h : ∀ p ∈ acc, Team.id p.2 = p.1) :
    ∀ p ∈ links.foldl extractStep acc, Team.id p.2 = p.1 := by
  induction links generalizing acc with
  | nil => exact h
  | cons a rest ih => exact ih (extractStep acc a) (extractStep_ids acc a h)

theorem extractFold_nodup (links : List DomLink) (acc : List (String × Team))
    (h : (acc.map Prod.fst).Nodup) :
    (((links.foldl extractStep acc)).map Prod.fst).Nodup := by
  induction links generalizing acc with
  | nil => exact h
  | cons a rest ih => exact ih (extractStep acc a) (extractStep_nodup acc a h)

/-- The first-seen-wins characterisation of the dedup map: the stored record
for a team id is the one built from the first valid link in document order. -/
theorem extractFold_lookup (links : List DomLink) (acc : List (String × Team)) (tid : String) :
    lookupKey (links.foldl extractStep acc) tid =
      match lookupKey acc tid with
      | some t => some t
      | none =>
        match firstTeamFor links tid with
        | some p => some ⟨p.1, tid, some p.2⟩
        | none => none := by
  induction links generalizing acc with
  | nil =>
    cases h : lookupKey acc tid <;> simp [firstTeamFor, h]
  | cons a rest ih =>
    show lookupKey (rest.foldl extractStep (extractStep acc a)) tid = _
    rw [ih]
    cases hm : matchTeamId a.href.data with
    | none => rw [extractStep_mnone acc a hm, firstTeamFor_mnone a rest tid hm]
    | some cap =>
      rw [firstTeamFor_msome a rest tid cap hm]
      by_cases hcond : (!(jsTrim a.text).isEmpty && (lookupKey acc (⟨cap⟩ : String)).isNone) = true
      · rw [extractStep_madd acc a cap hm hcond]
        simp only [Bool.and_eq_true] at hcond
        obtain ⟨hnm, hnone'⟩ := hcond
        have hnone : lookupKey acc (⟨cap⟩ : String) = none := by
          cases hl : lookupKey acc (⟨cap⟩ : String)
          · rfl
          · rw [hl] at hnone'
            exact absurd hnone' (by simp)
        have hnmf : (jsTrim a.text).isEmpty = false := by
          cases hl : (jsTrim a.text).isEmpty
          · rfl
          · rw [hl] at hnm
            exact absurd hnm (by simp)
        rw [lookup_append_single]
        by_cases htid : (⟨cap⟩ : String) = tid
        · subst htid
          rw [hnone]
          rw [if_pos (⟨rfl, hnmf⟩ : (⟨cap⟩ : String) = ⟨cap⟩ ∧ (jsTrim a.text).isEmpty = false)]
          simp
        · cases hacc : lookupKey acc tid with
          | some t => simp
          | none =>
            rw [if_neg htid, if_neg (fun hh => htid hh.1)]
      · rw [extractStep_mskip acc a cap hm hcond]
        cases hacc : lookupKey acc tid with
        | some t => simp [hacc]
        | none =>
          have hcond2 : ¬ ((⟨cap⟩ : String) = tid ∧ (jsTrim a.text).isEmpty = false) := by
            rintro ⟨hct, hne⟩
            apply hcond
            rw [hne, hct, hacc]
            rfl
          rw [if_neg hcond2]


theorem filter_map_snd (ps : List (String × Team)) (tid : String)
    (hids : ∀ p ∈ ps, Team.id p.2 = p.1) (hnd : (ps.map Prod.fst).Nodup) :
    (ps.map Prod.snd).filter (fun t => t.id == tid) =
      match lookupKey ps tid with
      | some t => [t]
      | none => [] := by
  induction ps with
  | nil => rfl
  | cons p rest ih =>
    obtain ⟨k, t⟩ := p
    have htk : t.id = k := hids (k, t) (List.mem_cons_self _ _)
    simp only [List.map_cons, List.nodup_cons] at hnd
    have hrest := ih (fun q hq => hids q (List.mem_cons_of_mem _ hq)) hnd.2
    by_cases hk : k = tid
    · subst hk
      have hlook : lookupKey rest k = none :=
        lookup_none_of_not_mem rest k hnd.1
      simp only [List.map_cons, List.filter_cons, htk, beq_self_eq_true, if_pos]
      rw [hrest, hlook]
      simp [lookupKey]
    · have hne : (t.id == tid) = false := by
        rw [htk]
        exact beq_eq_false_iff_ne.mpr hk
      simp only [List.map_cons, List.filter_cons, hne]
      rw [hrest]
      simp [lookupKey, hk]

/-! ## Claim C9 -/

/-- C9 (confirmed).  Extraction dedup with first-seen-wins: whenever some link
in the rendered page yields team id `tid` (in particular when two or more
links share that id with different anchor texts), extract returns exactly one
record for `tid`, carrying the name and href of the first such link in
document order (`firstTeamFor`). -/
theorem claim_C9 (links : List DomLink) (tid n u : String)
    (h : firstTeamFor links tid = some (n, u)) :
    (extractTeams links).filter (fun t => t.id == tid) = [⟨n, tid, some u⟩] := by
  unfold extractTeams
  rw [filter_map_snd (links.foldl extractStep []) tid
    (extractFold_ids links [] (by intro p hp; cases hp))
    (extractFold_nodup links [] List.nodup_nil)]
  rw [extractFold_lookup links [] tid]
  simp only [lookupKey, h]

/-- C9 witness: two links with the same team id and different anchor text give
exactly one record with the first link's name. -/
theorem claim_C9_witness :
    firstTeamFor
      [⟨"https://www.flashscore.com/team/arsenal/W8mj7MDD/", "Arsenal"⟩,
       ⟨"https://www.flashscore.com/team/arsenal/W8mj7MDD/#overview", " Arsenal FC "⟩]
      "W8mj7MDD" = some ("Arsenal", "https://www.flashscore.com/team/arsenal/W8mj7MDD/") ∧
    (extractTeams
      [⟨"https://www.flashscore.com/team/arsenal/W8mj7MDD/", "Arsenal"⟩,
       ⟨"https://www.flashscore.com/team/arsenal/W8mj7MDD/#overview", " Arsenal FC "⟩]).filter
        (fun t => t.id == "W8mj7MDD") =
      [⟨"Arsenal", "W8mj7MDD", some "https://www.flashscore.com/team/arsenal/W8mj7MDD/"⟩] :=
  ⟨by decide,
    claim_C9
      [⟨"https://www.flashscore.com/team/arsenal/W8mj7MDD/", "Arsenal"⟩,
       ⟨"https://www.flashscore.com/team/arsenal/W8mj7MDD/#overview", " Arsenal FC "⟩]
      "W8mj7MDD" "Arsenal" "https://www.flashscore.com/team/arsenal/W8mj7MDD/" (by decide)⟩

/-! ## JSON values, serialisation and parsing (checkpoint I/O)

The checkpoint is written with `JSON.stringify(output, null, 2)` and read back
with `JSON.parse`.  Snapshot values only ever contain objects, arrays, strings
and null (the sentinel's url), so the JSON model below covers exactly that
fragment; `parseJson` models the restriction of `JSON.parse` to this fragment
(inputs outside it — numbers, booleans — are rejected, as are genuinely
malformed inputs, on which `JSON.parse` throws). -/

inductive J where
  | jnull : J
  | jstr : String → J
  | jarr : List J → J
  | jobj : List (String × J) → J

/-- JSON string escaping as performed by `JSON.stringify` on the characters
that can appear in snapshot strings (quote and backslash; control characters
are excluded by the validity predicate below). -/
def escapeChar (c : Char) : List Char :=
  if c = '"' then ['\\', '"'] else if c = '\\' then ['\\', '\\'] else [c]

def escapeStr : List Char → List Char
  | [] => []
  | c :: cs => escapeChar c ++ escapeStr cs

def nSpaces (n : Nat) : List Char := List.replicate n ' '

mutual
def printJ (ind : Nat) : J → List Char
  | .jnull => ['n', 'u', 'l', 'l']
  | .jstr s => '"' :: (escapeStr s.data ++ ['"'])
  | .jarr [] => ['[', ']']
  | .jarr (e :: es) =>
    '[' :: '\n' :: (nSpaces (ind + 2) ++ (printJ (ind + 2) e ++ (printItems (ind + 2) es ++
      '\n' :: (nSpaces ind ++ [']']))))
  | .jobj [] => ['\x7b', '\x7d']
  | .jobj (f :: fs) =>
    '\x7b' :: '\n' :: (nSpaces (ind + 2) ++ (printMember (ind + 2) f ++ (printMembers (ind + 2) fs ++
      '\n' :: (nSpaces ind ++ ['\x7d']))))

def printItems (ind : Nat) : List J → List Char
  | [] => []
  | e :: es => ',' :: '\n' :: (nSpaces ind ++ (printJ ind e ++ printItems ind es))

def printMember (ind : Nat) : String × J → List Char
  | (k, v) => '"' :: (escapeStr k.data ++ (['"', ':', ' '] ++ printJ ind v))

def printMembers (ind : Nat) : List (String × J) → List Char
  | [] => []
  | f :: fs => ',' :: '\n' :: (nSpaces ind ++ (printMember ind f ++ printMembers ind fs))
end

/-- `JSON.stringify(v, null, 2)`. -/
def stringify (v : J) : String := ⟨printJ 0 v⟩

def jsonWs (c : Char) : Bool := c = ' ' || c = '\n' || c = '\t' || c = '\r'

def skipWs : List Char → List Char
  | [] => []
  | c :: cs => if jsonWs c then skipWs cs else c :: cs

/-- Parse the body of a JSON string after the opening quote; handles the two
escapes `stringify` emits and rejects raw control characters, as `JSON.parse`
does. -/
def parseStrBody : List Char → Option (List Char × List Char)
  | [] => none
  | c :: cs =>
    if c = '"' then some ([], cs)
    else if c = '\\' then
      match cs with
      | [] => none
      | e :: cs2 =>
        if e = '"' || e = '\\' then
          match parseStrBody cs2 with
          | some p => some (e :: p.1, p.2)
          | none => none
        else none
    else if c.toNat < 32 then none
    else
      match parseStrBody cs with
      | some p => some (c :: p.1, p.2)
      | none => none

mutual
def parseVal : Nat → List Char → Option (J × List Char)
  | 0, _ => none
  | fuel + 1, cs0 =>
    match skipWs cs0 with
    | [] => none
    | c :: cs =>
      if c = '"' then
        match parseStrBody cs with
        | some p => some (.jstr ⟨p.1⟩, p.2)
        | none => none
      else if c = '[' then
        match skipWs cs with
        | [] => none
        | c2 :: cs2 =>
          if c2 = ']' then some (.jarr [], cs2)
          else
            match parseElems fuel (c2 :: cs2) with
            | some p => some (.jarr p.1, p.2)
            | none => none
      else if c = '\x7b' then
        match skipWs cs with
        | [] => none
        | c2 :: cs2 =>
          if c2 = '\x7d' then some (.jobj [], cs2)
          else
            match parseMembers fuel (c2 :: cs2) with
            | some p => some (.jobj p.1, p.2)
            | none => none
      else if c = 'n' then
        match cs with
        | 'u' :: 'l' :: 'l' :: rest => some (.jnull, rest)
        | _ => none
      else none

def parseElems : Nat → List Char → Option (List J × List Char)
  | 0, _ => none
  | fuel + 1, cs =>
    match parseVal fuel cs with
    | none => none
    | some (v, r1) =>
      match skipWs r1 with
      | [] => none
      | c :: r2 =>
        if c = ',' then
          match parseElems fuel r2 with
          | some p => some (v :: p.1, p.2)
          | none => none
        else if c = ']' then some ([v], r2)
        else none

def parseMembers : Nat → List Char → Option (List (String × J) × List Char)
  | 0, _ => none
  | fuel + 1, cs =>
    match skipWs cs with
    | [] => none
    | c :: r0 =>
      if c = '"' then
        match parseStrBody r0 with
        | none => none
        | some (k, r1) =>
          match skipWs r1 with
          | [] => none
          | c1 :: r2 =>
            if c1 = ':' then
              match parseVal fuel r2 with
              | none => none
              | some (v, r3) =>
                match skipWs r3 with
                | [] => none
                | c2 :: r4 =>
                  if c2 = ',' then
                    match parseMembers fuel r4 with
                    | some p => some ((⟨k⟩, v) :: p.1, p.2)
                    | none => none
                  else if c2 = '\x7d' then some ([(⟨k⟩, v)], r4)
                  else none
            else none
      else none
end

/-- `JSON.parse`, on the JSON fragment emitted by the checkpoint writer.  The
fuel `s.length + 1` is enough for any value whose serialisation is `s` (each
nesting level consumes at least one character). -/
def parseJson (s : String) : Option J :=
  match parseVal (s.data.length + 1) s.data with
  | some (v, rest) => if skipWs rest = [] then some v else none
  | none => none

/-! ## Validity and the snapshot shape -/

def validChar (c : Char) : Bool := 32 ≤ c.toNat

def validStr (s : String) : Bool := s.data.all validChar

mutual
def validJ : J → Bool
  | .jnull => true
  | .jstr s => validStr s
  | .jarr es => validElems es
  | .jobj fs => validMembers fs

def validElems : List J → Bool
  | [] => true
  | e :: es => validJ e && validElems es

def validMembers : List (String × J) → Bool
  | [] => true
  | (k, v) :: fs => validStr k && validJ v && validMembers fs
end

/-- Shape of a team record as the main script writes it. -/
def teamShape : J → Bool
  | .jobj [("name", .jstr _), ("id", .jstr _), ("url", u)] =>
    match u with
    | .jnull => true
    | .jstr _ => true
    | _ => false
  | _ => false

def leagueShape : J → Bool
  | .jobj [("slug", .jstr _), ("url", .jstr _), ("teams", .jarr ts)] => ts.all teamShape
  | _ => false

def countryShape : J → Bool
  | .jobj [("slug", .jstr _), ("url", .jstr _), ("leagues", .jobj ls)] =>
    ls.all (fun kv => leagueShape kv.2)
  | _ => false

def snapShape : J → Bool
  | .jobj cs => cs.all (fun kv => countryShape kv.2)
  | _ => false

/-- A valid snapshot: the checkpoint tree shape of the main script, with
strings free of control characters (which `JSON.stringify` would otherwise
escape with `\u` sequences, outside the modelled fragment). -/
def validSnapshotJ (v : J) : Bool := snapShape v && validJ v

/-! ## Checkpoint loaders -/

/-- Checkpoint load of the scraper-all first script and scraper-fast:
`let output = {}; if (existsSync(temp)) try { output = JSON.parse(...) } catch {}` —
a missing file or a parse failure leaves the empty snapshot. -/
def loadCheckpointSafe (file : Option String) : J :=
  match file with
  | none => .jobj []
  | some s =>
    match parseJson s with
    | some v => v
    | none => .jobj []

/-- Checkpoint load of the scraper-all main script:
`if (existsSync(tempFile)) output = JSON.parse(await fs.readFile(...));`
with NO catch — a parse failure throws out of main. -/
def loadCheckpointMain (file : Option String) : Except String J :=
  match file with
  | none => .ok (.jobj [])
  | some s =>
    match parseJson s with
    | some v => .ok v
    | none => .error "SyntaxError: Unexpected token in JSON"

/-! ## JSON encoding of the typed snapshot records (the object literals the
main script builds, in field order) -/

def teamToJ (t : Team) : J :=
  .jobj [("name", .jstr t.name), ("id", .jstr t.id),
         ("url", match t.url with | some u => .jstr u | none => .jnull)]

def leagueEntryToJ (e : LeagueEntry) : J :=
  .jobj [("slug", .jstr e.slug), ("url", .jstr e.url),
         ("teams", .jarr (e.teams.map teamToJ))]

def countryEntryToJ (e : CountryEntry) : J :=
  .jobj [("slug", .jstr e.slug), ("url", .jstr e.url),
         ("leagues", .jobj (e.leagues.map (fun p => (p.1, leagueEntryToJ p.2))))]

def snapToJ (S : Snap) : J := .jobj (S.map (fun p => (p.1, countryEntryToJ p.2)))

/-- The field list of a JSON object ([] on other values). -/
def jFields : J → List (String × J)
  | .jobj fs => fs
  | _ => []

/-! ## Round-trip lemmas: whitespace -/

theorem skipWs_nonws (c : Char) (l : List Char) (h : jsonWs c = false) :
    skipWs (c :: l) = c :: l := by
  simp [skipWs, h]

theorem skipWs_append (ws l : List Char) (h : ∀ c ∈ ws, jsonWs c = true) :
    skipWs (ws ++ l) = skipWs l := by
  induction ws with
  | nil => rfl
  | cons c cs ih =>
    simp only [List.cons_append, skipWs, h c (List.mem_cons_self c cs), if_pos]
    exact ih (fun d hd => h d (List.mem_cons_of_mem c hd))

theorem ws_nl_spaces (n : Nat) : ∀ c ∈ '\n' :: nSpaces n, jsonWs c = true := by
  intro c hc
  rcases List.mem_cons.mp hc with h | h
  · subst h; rfl
  · rw [List.eq_of_mem_replicate h]; rfl

theorem ws_spaces (n : Nat) : ∀ c ∈ nSpaces n, jsonWs c = true := by
  intro c hc
  rw [List.eq_of_mem_replicate hc]; rfl

/-! ## Round-trip lemmas: strings -/

theorem parseStrBody_quote (rest : List Char) :
    parseStrBody ('"' :: rest) = some ([], rest) := by
  rw [parseStrBody.eq_def]
  simp

theorem parseStrBody_esc (e : Char) (rest s1 r1 : List Char) (he : e = '"' ∨ e = '\\')
    (h : parseStrBody rest = some (s1, r1)) :
    parseStrBody ('\\' :: e :: rest) = some (e :: s1, r1) := by
  rw [parseStrBody.eq_def]
  rcases he with h' | h' <;> subst h' <;> simp [h]

theorem parseStrBody_char (c : Char) (rest s1 r1 : List Char) (hq : ¬ c = '"')
    (hb : ¬ c = '\\') (hlt : ¬ c.toNat < 32)
    (h : parseStrBody rest = some (s1, r1)) :
    parseStrBody (c :: rest) = some (c :: s1, r1) := by
  rw [parseStrBody.eq_def]
  simp only [if_neg hq, if_neg hb, if_neg hlt, h]

theorem escapeChar_other (c : Char) (hq : ¬ c = '"') (hb : ¬ c = '\\') :
    escapeChar c = [c] := by
  simp [escapeChar, hq, hb]

theorem parseStrBody_rt (s rest : List Char) (h : ∀ c ∈ s, validChar c = true) :
    parseStrBody (escapeStr s ++ '"' :: rest) = some (s, rest) := by
  induction s with
  | nil => exact parseStrBody_quote rest
  | cons c cs ih =>
    have hc := h c (List.mem_cons_self c cs)
    have ihcs := ih (fun d hd => h d (List.mem_cons_of_mem c hd))
    by_cases hq : c = '"'
    · subst hq
      show parseStrBody (('\\' :: '"' :: escapeStr cs) ++ '"' :: rest) = _
      simp only [List.cons_append]
      exact parseStrBody_esc '"' _ cs rest (Or.inl rfl) ihcs
    · by_cases hb : c = '\\'
      · subst hb
        show parseStrBody (('\\' :: '\\' :: escapeStr cs) ++ '"' :: rest) = _
        simp only [List.cons_append]
        exact parseStrBody_esc '\\' _ cs rest (Or.inr rfl) ihcs
      · have hlt : ¬ c.toNat < 32 := by
          have := of_decide_eq_true hc
          omega
        show parseStrBody (escapeChar c ++ escapeStr cs ++ '"' :: rest) = _
        rw [escapeChar_other c hq hb]
        simp only [List.cons_append, List.nil_append]
        exact parseStrBody_char c _ cs rest hq hb hlt ihcs

/-! ## Round-trip lemmas: head characters and parser steps -/

theorem printJ_cons (ind : Nat) (v : J) :
    ∃ c cs, printJ ind v = c :: cs ∧ jsonWs c = false ∧ ¬ c = ']' ∧ ¬ c = '\x7d' := by
  cases v with
  | jnull => exact ⟨'n', _, rfl, rfl, by decide, by decide⟩
  | jstr s => exact ⟨'"', _, rfl, rfl, by decide, by decide⟩
  | jarr es =>
    cases es with
    | nil => exact ⟨'[', _, rfl, rfl, by decide, by decide⟩
    | cons e es' => exact ⟨'[', _, rfl, rfl, by decide, by decide⟩
  | jobj fs =>
    cases fs with
    | nil => exact ⟨'\x7b', _, rfl, rfl, by decide, by decide⟩
    | cons f fs' => exact ⟨'\x7b', _, rfl, rfl, by decide, by decide⟩

theorem parseVal_skip (fuel : Nat) (ws l : List Char) (h : ∀ c ∈ ws, jsonWs c = true) :
    parseVal fuel (ws ++ l) = parseVal fuel l := by
  cases fuel with
  | zero => rfl
  | succ f => simp only [parseVal, skipWs_append ws l h]

theorem parseElems_skip (fuel : Nat) (ws l : List Char) (h : ∀ c ∈ ws, jsonWs c = true) :
    parseElems fuel (ws ++ l) = parseElems fuel l := by
  cases fuel with
  | zero => rfl
  | succ f => simp only [parseElems, parseVal_skip f ws l h]

theorem parseMembers_skip (fuel : Nat) (ws l : List Char) (h : ∀ c ∈ ws, jsonWs c = true) :
    parseMembers fuel (ws ++ l) = parseMembers fuel l := by
  cases fuel with
  | zero => rfl
  | succ f => simp only [parseMembers, skipWs_append ws l h]

theorem parseVal_null (fuel : Nat) (rest : List Char) :
    parseVal (fuel + 1) ('n' :: 'u' :: 'l' :: 'l' :: rest) = some (J.jnull, rest) := by
  simp [parseVal, skipWs, jsonWs]

theorem parseVal_quote (fuel : Nat) (X sd r : List Char)
    (h : parseStrBody X = some (sd, r)) :
    parseVal (fuel + 1) ('"' :: X) = some (J.jstr ⟨sd⟩, r) := by
  simp [parseVal, skipWs, jsonWs, h]

theorem parseVal_arr_empty (fuel : Nat) (rest : List Char) :
    parseVal (fuel + 1) ('[' :: ']' :: rest) = some (J.jarr [], rest) := by
  simp [parseVal, skipWs, jsonWs]

theorem parseVal_obj_empty (fuel : Nat) (rest : List Char) :
    parseVal (fuel + 1) ('\x7b' :: '\x7d' :: rest) = some (J.jobj [], rest) := by
  simp [parseVal, skipWs, jsonWs]

theorem parseVal_open_arr (fuel : Nat) (ws : List Char) (hwsl : ∀ c ∈ ws, jsonWs c = true)
    (c2 : Char) (cs2 : List Char) (hws : jsonWs c2 = false) (hne : ¬ c2 = ']')
    (es : List J) (r : List Char)
    (hp : parseElems fuel (c2 :: cs2) = some (es, r)) :
    parseVal (fuel + 1) ('[' :: (ws ++ (c2 :: cs2))) = some (J.jarr es, r) := by
  have h2 : skipWs (ws ++ (c2 :: cs2)) = c2 :: cs2 := by
    rw [skipWs_append ws _ hwsl, skipWs_nonws _ _ hws]
  simp [parseVal, skipWs, jsonWs, h2, hne, hp]

theorem parseVal_open_obj (fuel : Nat) (ws : List Char) (hwsl : ∀ c ∈ ws, jsonWs c = true)
    (c2 : Char) (cs2 : List Char) (hws : jsonWs c2 = false) (hne : ¬ c2 = '\x7d')
    (fs : List (String × J)) (r : List Char)
    (hp : parseMembers fuel (c2 :: cs2) = some (fs, r)) :
    parseVal (fuel + 1) ('\x7b' :: (ws ++ (c2 :: cs2))) = some (J.jobj fs, r) := by
  have h2 : skipWs (ws ++ (c2 :: cs2)) = c2 :: cs2 := by
    rw [skipWs_append ws _ hwsl, skipWs_nonws _ _ hws]
  simp [parseVal, skipWs, jsonWs, h2, hne, hp]

theorem printJ_length_pos (ind : Nat) (v : J) : 0 < (printJ ind v).length := by
  obtain ⟨c, cs, h, _, _, _⟩ := printJ_cons ind v
  rw [h]
  simp

theorem parseElems_last (fuel : Nat) (input REST r : List Char) (v : J)
    (hv : parseVal fuel input = some (v, REST))
    (hsk : skipWs REST = ']' :: r) :
    parseElems (fuel + 1) input = some ([v], r) := by
  simp [parseElems, hv, hsk]

theorem parseElems_cons_step (fuel : Nat) (input REST r2 r : List Char) (v : J) (vs : List J)
    (hv : parseVal fuel input = some (v, REST))
    (hsk : skipWs REST = ',' :: r2)
    (hrec : parseElems fuel r2 = some (vs, r)) :
    parseElems (fuel + 1) input = some (v :: vs, r) := by
  simp [parseElems, hv, hsk, hrec]

theorem parseMembers_last (fuel : Nat) (input r0 kd r1 r2 REST r4 : List Char) (v : J)
    (hhead : skipWs input = '"' :: r0)
    (hkey : parseStrBody r0 = some (kd, r1))
    (hcol : skipWs r1 = ':' :: r2)
    (hv : parseVal fuel r2 = some (v, REST))
    (hend : skipWs REST = '\x7d' :: r4) :
    parseMembers (fuel + 1) input = some ([(⟨kd⟩, v)], r4) := by
  simp [parseMembers, hhead, hkey, hcol, hv, hend]

theorem parseMembers_cons_step (fuel : Nat) (input r0 kd r1 r2 REST r4 r : List Char) (v : J)
    (fs : List (String × J))
    (hhead : skipWs input = '"' :: r0)
    (hkey : parseStrBody r0 = some (kd, r1))
    (hcol : skipWs r1 = ':' :: r2)
    (hv : parseVal fuel r2 = some (v, REST))
    (hend : skipWs REST = ',' :: r4)
    (hrec : parseMembers fuel r4 = some (fs, r)) :
    parseMembers (fuel + 1) input = some ((⟨kd⟩, v) :: fs, r) := by
  simp [parseMembers, hhead, hkey, hcol, hv, hend, hrec]

/-- The central round-trip lemma: with enough fuel (bounded by the printed
length), parsing a printed value consumes exactly the printed prefix and
reconstructs the value.  Proved by induction on the fuel, with companion
statements for the element and member lists. -/
theorem parse_print_aux (fuel : Nat) :
    (∀ (v : J) (ind : Nat) (rest : List Char), validJ v = true →
        (printJ ind v).length ≤ fuel →
        parseVal fuel (printJ ind v ++ rest) = some (v, rest)) ∧
    (∀ (e : J) (es : List J) (ind : Nat) (tail rest : List Char),
        validJ e = true → validElems es = true →
        (∀ c ∈ tail, jsonWs c = true) →
        (printJ ind e).length + (printItems ind es).length < fuel →
        parseElems fuel (printJ ind e ++ (printItems ind es ++ (tail ++ ']' :: rest))) =
          some (e :: es, rest)) ∧
    (∀ (k : String) (v : J) (fs : List (String × J)) (ind : Nat) (tail rest : List Char),
        validStr k = true → validJ v = true → validMembers fs = true →
        (∀ c ∈ tail, jsonWs c = true) →
        (printMember ind (k, v)).length + (printMembers ind fs).length < fuel →
        parseMembers fuel
            (printMember ind (k, v) ++ (printMembers ind fs ++ (tail ++ '\x7d' :: rest))) =
          some ((k, v) :: fs, rest)) := by
  induction fuel with
  | zero =>
    refine ⟨?_, ?_, ?_⟩
    · intro v ind rest _ hlen
      have := printJ_length_pos ind v
      omega
    · intro e es ind tail rest _ _ _ hlen
      omega
    · intro k v fs ind tail rest _ _ _ _ hlen
      omega
  | succ fuel ih =>
    obtain ⟨IH1, IH2, IH3⟩ := ih
    refine ⟨?_, ?_, ?_⟩
    · -- parseVal on a printed value
      intro v ind rest hval hlen
      cases v with
      | jnull => exact parseVal_null fuel rest
      | jstr s =>
        have hlist : printJ ind (J.jstr s) ++ rest =
            '"' :: (escapeStr s.data ++ '"' :: rest) := by
          show ('"' :: (escapeStr s.data ++ ['"'])) ++ rest = _
          simp
        rw [hlist]
        have hvs : ∀ c ∈ s.data, validChar c = true := by
          have hv : validStr s = true := by simpa [validJ] using hval
          simpa [validStr, List.all_eq_true] using hv
        exact parseVal_quote fuel _ s.data rest (parseStrBody_rt s.data rest hvs)
      | jarr es =>
        cases es with
        | nil => exact parseVal_arr_empty fuel rest
        | cons e es' =>
          have hv2 : validJ e = true ∧ validElems es' = true := by
            have h := hval
            simp only [validJ, validElems, Bool.and_eq_true] at h
            exact h
          have hlen2 : (printJ (ind + 2) e).length + (printItems (ind + 2) es').length
              < fuel := by
            have h := hlen
            simp only [printJ, List.length_cons, List.length_append, nSpaces,
              List.length_replicate] at h
            omega
          obtain ⟨c2, cs2, hpc, hcws, hcne, _⟩ := printJ_cons (ind + 2) e
          have hp : parseElems fuel (c2 :: (cs2 ++ (printItems (ind + 2) es' ++
              (('\n' :: nSpaces ind) ++ (']' :: rest))))) = some (e :: es', rest) := by
            have hinner : printJ (ind + 2) e ++ (printItems (ind + 2) es' ++
                (('\n' :: nSpaces ind) ++ (']' :: rest))) =
                c2 :: (cs2 ++ (printItems (ind + 2) es' ++
                (('\n' :: nSpaces ind) ++ (']' :: rest)))) := by
              rw [hpc]
              rfl
            rw [← hinner]
            exact IH2 e es' (ind + 2) ('\n' :: nSpaces ind) rest hv2.1 hv2.2
              (ws_nl_spaces ind) hlen2
          have hgoal : printJ ind (J.jarr (e :: es')) ++ rest =
              '[' :: (('\n' :: nSpaces (ind + 2)) ++ (c2 :: (cs2 ++
                (printItems (ind + 2) es' ++ (('\n' :: nSpaces ind) ++ (']' :: rest)))))) := by
            show '[' :: '\n' :: ((nSpaces (ind + 2) ++ (printJ (ind + 2) e ++
              (printItems (ind + 2) es' ++ '\n' :: (nSpaces ind ++ [']'])))) ++ rest) = _
            rw [hpc]
            simp [List.append_assoc]
          rw [hgoal]
          exact parseVal_open_arr fuel _ (ws_nl_spaces (ind + 2)) c2 _ hcws hcne _ rest hp
      | jobj fs =>
        cases fs with
        | nil => exact parseVal_obj_empty fuel rest
        | cons f fs' =>
          obtain ⟨k, v0⟩ := f
          have hv2 : validStr k = true ∧ validJ v0 = true ∧ validMembers fs' = true := by
            have h := hval
            simp only [validJ, validMembers, Bool.and_eq_true] at h
            exact ⟨h.1.1, h.1.2, h.2⟩
          have hlen2 : (printMember (ind + 2) (k, v0)).length +
              (printMembers (ind + 2) fs').length < fuel := by
            have h := hlen
            simp only [printJ, List.length_cons, List.length_append, nSpaces,
              List.length_replicate] at h
            omega
          have hp : parseMembers fuel ('"' :: ((escapeStr k.data ++ (['"', ':', ' '] ++
              printJ (ind + 2) v0)) ++ (printMembers (ind + 2) fs' ++
              (('\n' :: nSpaces ind) ++ ('\x7d' :: rest))))) = some ((k, v0) :: fs', rest) := by
            show parseMembers fuel (printMember (ind + 2) (k, v0) ++
              (printMembers (ind + 2) fs' ++ (('\n' :: nSpaces ind) ++ ('\x7d' :: rest)))) = _
            exact IH3 k v0 fs' (ind + 2) ('\n' :: nSpaces ind) rest hv2.1 hv2.2.1 hv2.2.2
              (ws_nl_spaces ind) hlen2
          have hgoal : printJ ind (J.jobj ((k, v0) :: fs')) ++ rest =
              '\x7b' :: (('\n' :: nSpaces (ind + 2)) ++ ('"' :: ((escapeStr k.data ++
                (['"', ':', ' '] ++ printJ (ind + 2) v0)) ++ (printMembers (ind + 2) fs' ++
                (('\n' :: nSpaces ind) ++ ('\x7d' :: rest)))))) := by
            show '\x7b' :: '\n' :: ((nSpaces (ind + 2) ++ (('"' :: (escapeStr k.data ++
              (['"', ':', ' '] ++ printJ (ind + 2) v0))) ++ (printMembers (ind + 2) fs' ++
              '\n' :: (nSpaces ind ++ ['\x7d'])))) ++ rest) = _
            simp [List.append_assoc]
          rw [hgoal]
          exact parseVal_open_obj fuel _ (ws_nl_spaces (ind + 2)) '"' _ rfl (by decide)
            _ rest hp
    · -- parseElems on a printed element list
      intro e es ind tail rest hve hves hwst hlen
      have hlenE : (printJ ind e).length ≤ fuel := by omega
      have hv := IH1 e ind (printItems ind es ++ (tail ++ ']' :: rest)) hve hlenE
      cases es with
      | nil =>
        have hsk : skipWs (printItems ind ([] : List J) ++ (tail ++ ']' :: rest)) =
            ']' :: rest := by
          show skipWs (tail ++ ']' :: rest) = ']' :: rest
          rw [skipWs_append tail _ hwst, skipWs_nonws ']' rest rfl]
        exact parseElems_last fuel _ _ rest e hv hsk
      | cons e2 es2 =>
        have hassoc : printItems ind (e2 :: es2) ++ (tail ++ ']' :: rest) =
            ',' :: (('\n' :: nSpaces ind) ++ (printJ ind e2 ++ (printItems ind es2 ++
              (tail ++ ']' :: rest)))) := by
          show ',' :: '\n' :: ((nSpaces ind ++ (printJ ind e2 ++ printItems ind es2)) ++
            (tail ++ ']' :: rest)) = _
          simp [List.append_assoc]
        rw [hassoc]
        rw [hassoc] at hv
        have hv23 : validJ e2 = true ∧ validElems es2 = true := by
          simp only [validElems, Bool.and_eq_true] at hves
          exact hves
        have hlen3 : (printJ ind e2).length + (printItems ind es2).length < fuel := by
          have h := hlen
          simp only [printItems, List.length_cons, List.length_append, nSpaces,
            List.length_replicate] at h
          omega
        have hrec : parseElems fuel (('\n' :: nSpaces ind) ++ (printJ ind e2 ++
            (printItems ind es2 ++ (tail ++ ']' :: rest)))) = some (e2 :: es2, rest) := by
          rw [parseElems_skip fuel _ _ (ws_nl_spaces ind)]
          exact IH2 e2 es2 ind tail rest hv23.1 hv23.2 hwst hlen3
        exact parseElems_cons_step fuel _ _ _ rest e (e2 :: es2) hv
          (skipWs_nonws _ _ rfl) hrec
    · -- parseMembers on a printed member list
      intro k v fs ind tail rest hvk hvv hvfs hwst hlen
      have hin : printMember ind (k, v) ++ (printMembers ind fs ++ (tail ++ '\x7d' :: rest)) =
          '"' :: (escapeStr k.data ++ ('"' :: ':' :: ' ' :: (printJ ind v ++
            (printMembers ind fs ++ (tail ++ '\x7d' :: rest))))) := by
        show '"' :: ((escapeStr k.data ++ (['"', ':', ' '] ++ printJ ind v)) ++
          (printMembers ind fs ++ (tail ++ '\x7d' :: rest))) = _
        simp [List.append_assoc]
      rw [hin]
      have hks : ∀ c ∈ k.data, validChar c = true := by
        simpa [validStr, List.all_eq_true] using hvk
      have hkey := parseStrBody_rt k.data
        (':' :: ' ' :: (printJ ind v ++ (printMembers ind fs ++ (tail ++ '\x7d' :: rest)))) hks
      have hlenV : (printJ ind v).length ≤ fuel := by
        have h := hlen
        simp only [printMember, List.length_cons, List.length_append] at h
        omega
      have hv1 : parseVal fuel (' ' :: (printJ ind v ++ (printMembers ind fs ++
          (tail ++ '\x7d' :: rest)))) = some (v, printMembers ind fs ++
          (tail ++ '\x7d' :: rest)) := by
        show parseVal fuel ([' '] ++ (printJ ind v ++ (printMembers ind fs ++
          (tail ++ '\x7d' :: rest)))) = _
        rw [parseVal_skip fuel [' '] _ (by intro c hc; simp at hc; subst hc; rfl)]
        exact IH1 v ind _ hvv hlenV
      cases fs with
      | nil =>
        have hend : skipWs (printMembers ind ([] : List (String × J)) ++
            (tail ++ '\x7d' :: rest)) = '\x7d' :: rest := by
          show skipWs (tail ++ '\x7d' :: rest) = '\x7d' :: rest
          rw [skipWs_append tail _ hwst, skipWs_nonws '\x7d' rest rfl]
        exact parseMembers_last fuel _ _ k.data _ _ _ rest v (skipWs_nonws _ _ rfl)
          hkey (skipWs_nonws _ _ rfl) hv1 hend
      | cons f2 fs2 =>
        obtain ⟨k2, v2⟩ := f2
        have hassoc : printMembers ind ((k2, v2) :: fs2) ++ (tail ++ '\x7d' :: rest) =
            ',' :: (('\n' :: nSpaces ind) ++ (printMember ind (k2, v2) ++
              (printMembers ind fs2 ++ (tail ++ '\x7d' :: rest)))) := by
          show ',' :: '\n' :: ((nSpaces ind ++ (printMember ind (k2, v2) ++
            printMembers ind fs2)) ++ (tail ++ '\x7d' :: rest)) = _
          simp [List.append_assoc]
        rw [hassoc]
        rw [hassoc] at hv1 hkey
        have hv23 : validStr k2 = true ∧ validJ v2 = true ∧ validMembers fs2 = true := by
          simp only [validMembers, Bool.and_eq_true] at hvfs
          exact ⟨hvfs.1.1, hvfs.1.2, hvfs.2⟩
        have hlen3 : (printMember ind (k2, v2)).length + (printMembers ind fs2).length
            < fuel := by
          have h := hlen
          simp only [printMembers, List.length_cons, List.length_append, nSpaces,
            List.length_replicate] at h
          omega
        have hrec : parseMembers fuel (('\n' :: nSpaces ind) ++ (printMember ind (k2, v2) ++
            (printMembers ind fs2 ++ (tail ++ '\x7d' :: rest)))) =
            some ((k2, v2) :: fs2, rest) := by
          rw [parseMembers_skip fuel _ _ (ws_nl_spaces ind)]
          exact IH3 k2 v2 fs2 ind tail rest hv23.1 hv23.2.1 hv23.2.2 hwst hlen3
        exact parseMembers_cons_step fuel _ _ k.data _ _ _ _ rest v ((k2, v2) :: fs2)
          (skipWs_nonws _ _ rfl) hkey (skipWs_nonws _ _ rfl) hv1
          (skipWs_nonws _ _ rfl) hrec

theorem parse_stringify (v : J) (h : validJ v = true) :
    parseJson (stringify v) = some v := by
  have hdata : (stringify v).data = printJ 0 v := rfl
  have h1 := (parse_print_aux ((printJ 0 v).length + 1)).1 v 0 [] h (by omega)
  rw [List.append_nil] at h1
  unfold parseJson
  rw [hdata, h1]
  rfl

/-! ## Claim C8 -/

/-- C8 (confirmed).  Checkpoint round-trip: for every valid Snapshot (the
checkpoint tree shape, with strings free of control characters), JSON-parsing
the JSON serialisation — `JSON.parse` of `JSON.stringify(S, null, 2)`, as the
load and save sites do — yields the same value. -/
theorem claim_C8 (v : J) (h : validSnapshotJ v = true) :
    parseJson (stringify v) = some v := by
  apply parse_stringify
  have h2 := h
  simp only [validSnapshotJ, Bool.and_eq_true] at h2
  exact h2.2

def jTeamW : J :=
  J.jobj [("name", J.jstr "Arsenal"), ("id", J.jstr "W8mj7MDD"), ("url", J.jnull)]

def jLeagueW : J :=
  J.jobj [("slug", J.jstr "premier-league"),
          ("url", J.jstr "https://www.flashscore.com/soccer/england/premier-league"),
          ("teams", J.jarr [jTeamW])]

def jCountryW : J :=
  J.jobj [("slug", J.jstr "england"),
          ("url", J.jstr "https://www.flashscore.com/soccer/england"),
          ("leagues", J.jobj [("Premier League", jLeagueW)])]

def wSnapJ : J := J.jobj [("England", jCountryW)]

/-- C8 witness: a one-country, one-league, one-team snapshot round-trips. -/
theorem claim_C8_witness :
    validSnapshotJ wSnapJ = true ∧ parseJson (stringify wSnapJ) = some wSnapJ :=
  ⟨rfl, claim_C8 wSnapJ rfl⟩

/-! ## Claim C4 -/

/-- C4 (corrected).  Checkpoint load tolerance as it actually holds: the
loaders of the scraper-all first script and scraper-fast wrap `JSON.parse` in
try/catch, so a missing or unparseable checkpoint yields the empty snapshot
and the crawl proceeds; but the main script's loader has NO catch, so an
unparseable checkpoint file makes the load throw (the run aborts) instead of
falling back to the empty snapshot. -/
theorem claim_C4 (s : String) (h : parseJson s = none) :
    loadCheckpointSafe none = J.jobj [] ∧
    loadCheckpointSafe (some s) = J.jobj [] ∧
    loadCheckpointMain none = Except.ok (J.jobj []) ∧
    loadCheckpointMain (some s) =
      Except.error "SyntaxError: Unexpected token in JSON" := by
  refine ⟨rfl, ?_, rfl, ?_⟩
  · simp [loadCheckpointSafe, h]
  · simp [loadCheckpointMain, h]

/-- C4 witness: a truncated checkpoint (a lone opening brace) is tolerated by
the guarded loaders. -/
theorem claim_C4_witness :
    parseJson "\x7b" = none ∧
    loadCheckpointSafe (some "\x7b") = J.jobj [] ∧
    loadCheckpointMain (some "\x7b") =
      Except.error "SyntaxError: Unexpected token in JSON" :=
  ⟨rfl, (claim_C4 "\x7b" rfl).2.1, (claim_C4 "\x7b" rfl).2.2.2⟩

/-- C4 counterexample: the main script's loader (scraper-all.js second script,
line 250, no catch) throws on the corrupt checkpoint content consisting of a
lone opening brace, so a damaged checkpoint does crash that run. -/
theorem counterexample_C4 :
    loadCheckpointMain (some "\x7b") =
      Except.error "SyntaxError: Unexpected token in JSON" := rfl

/-! ## Claim C5 -/

def lgCopa : League := ⟨"Copa del Rey", copaUrl⟩

def ceSpain : CountryEntry := ⟨"spain", "https://www.flashscore.com/soccer/spain", []⟩

/-- C5 (corrected).  Cup storage as it actually is: a cup-classified league
whose fetch attempts all fail is stored with the single sentinel team record
`{name:'isCup', id:'isCup', url:null}` — but NO `isCup` field is ever written
to the snapshot (the league record is `{slug, url, teams}`); the sentinel
inside `teams` is the only marker distinguishing it from a non-cup league
stored with `teams: []`. -/
theorem claim_C5 (ce : CountryEntry) (lg : League) (o : Nat → Except String (List DomLink))
    (hcup : isCup lg.url = true) (hfail : ∀ i, ∃ e, o i = Except.error e)
    (hskip : skipCached ce lg.name = false) :
    ∃ ce', leagueStep o ce lg = Except.ok (ce', 1) ∧
      lookupKey ce'.leagues lg.name = some ⟨slug lg.url, lg.url, [sentinelTeam]⟩ ∧
      lookupKey (jFields (leagueEntryToJ (⟨slug lg.url, lg.url, [sentinelTeam]⟩ : LeagueEntry)))
        "isCup" = none := by
  obtain ⟨e1, h1⟩ := hfail 1
  have hrun : runLeagueFetch lg.url o = Except.ok ([sentinelTeam], 1) := by
    simp [runLeagueFetch, h1, fetchTeamsMain_error, hcup]
  refine ⟨{ ce with leagues := setKey ce.leagues lg.name ⟨slug lg.url, lg.url, [sentinelTeam]⟩ },
    ?_, ?_, rfl⟩
  · simp [leagueStep, hskip, hrun]
  · exact lookup_setKey_self ce.leagues lg.name _

/-- C5 witness: the copa league with an always-failing fetcher. -/
theorem claim_C5_witness :
    isCup copaUrl = true ∧
    (∃ ce', leagueStep alwaysFailLinks ceSpain lgCopa = Except.ok (ce', 1) ∧
      lookupKey ce'.leagues lgCopa.name = some ⟨slug lgCopa.url, lgCopa.url, [sentinelTeam]⟩ ∧
      lookupKey (jFields (leagueEntryToJ
        (⟨slug lgCopa.url, lgCopa.url, [sentinelTeam]⟩ : LeagueEntry))) "isCup" = none) :=
  ⟨by decide,
    claim_C5 ceSpain lgCopa alwaysFailLinks (by decide)
      (fun _ => ⟨"net::ERR_FAILED", rfl⟩) rfl⟩

/-- C5 counterexample: the stored record for the failed copa league holds the
sentinel team but its JSON encoding has no "isCup" key at all — contradicting
the claim that the league is stored with `isCup` set to true. -/
theorem counterexample_C5 :
    leagueStep alwaysFailLinks ceSpain lgCopa =
      Except.ok ({ ceSpain with leagues := [("Copa del Rey",
        (⟨"copa-del-rey", copaUrl, [sentinelTeam]⟩ : LeagueEntry))] }, 1) ∧
    lookupKey (jFields (leagueEntryToJ
      (⟨"copa-del-rey", copaUrl, [sentinelTeam]⟩ : LeagueEntry))) "isCup" = none :=
  ⟨rfl, rfl⟩
